import Mathlib

/-!
# Verification of the response-caching subsystem of `haveibeenpwned-ts`

Shallow embedding of the cache manager (`src/cache.ts`), the client's
read-through request path and the breached-domain query optimisation
(`src/index.ts`), faithful to the TypeScript source.

Conventions of the embedding:

* JavaScript values appearing as query parameters are modelled by `JsValue`
  (`undefined`, `null`, strings, booleans — the value shapes the client
  actually passes).  `String(value)` is `jsString`.
* JavaScript truthiness on optional strings (`null`/`undefined`/`""` are
  falsy) is `jsTruthyStr`; on the optional numeric `ttl` it is `jsTruthyNat`.
* The SHA-256 digest is modelled abstractly: `createCacheStream` is the exact
  sequence of characters fed to `hash.update` (updates concatenate), and
  `createCacheKey hash e ps = hash (createCacheStream e ps)` for an arbitrary
  digest function `hash`.  A collision-free hash is an injective `hash`.
* `Date.now()` is an explicit `now : Int` argument (milliseconds).
* The filesystem is an explicit `Store`: a map from cache key to the outcome
  of attempting to read that entry (missing file, not a regular file,
  unparsable content, I/O error, or a parsed `CacheItem`).  The `try/catch`
  in `CacheManager.get`/`set` corresponds to the error outcomes.
* Mutable fields (`latestBreachDate`, `lastKnownBreachDate`) are explicit
  state records threaded through the functions.
-/

/-- A JavaScript value usable as a query-parameter value: `undefined`,
`null`, a string, or a boolean (the shapes `RequestOptions.params` takes in
this client). -/
inductive JsValue where
  | undef : JsValue
  | jsNull : JsValue
  | str : String → JsValue
  | bool : Bool → JsValue
deriving DecidableEq

/-- JavaScript `String(value)` for the values of `JsValue` (`String(null) =
"null"`, `String(true) = "true"`, strings unchanged). -/
def jsString : JsValue → String
  | .undef => "undefined"
  | .jsNull => "null"
  | .str s => s
  | .bool b => cond b "true" "false"

/-- JavaScript truthiness of a `string | null | undefined` value: absent and
the empty string are falsy. -/
def jsTruthyStr : Option String → Bool
  | none => false
  | some s => decide (s ≠ "")

/-- JavaScript truthiness of a `number | undefined` value (for `config.ttl`):
absent and `0` are falsy. -/
def jsTruthyNat : Option Nat → Bool
  | none => false
  | some n => decide (n ≠ 0)

/-- Build a `String` from its character list (the canonical injective digest
function used to instantiate abstract hashes in concrete examples). -/
def strOfChars (l : List Char) : String := ⟨l⟩

/-- Structure `CacheConfig` from `src/types.ts`: `enabled`, optional `directory`,
optional `ttl` in milliseconds. -/
structure CacheConfig where
  enabled : Bool
  directory : Option String
  ttl : Option Nat
deriving DecidableEq

/-- Structure `CacheMetadata` from `src/types.ts`: creation `timestamp` (`Date.now()`)
and the optional `latestBreachAddedDate` captured at write time. -/
structure CacheMetadata where
  timestamp : Int
  latestBreachAddedDate : Option String
deriving DecidableEq

/-- Structure `CacheItem<T>` from `src/types.ts`.  The payload is `Option V`: `none`
models a stored JSON `null` (nothing in `CacheManager.set` prevents caching
`null`). -/
structure CacheItem (V : Type) where
  data : Option V
  metadata : CacheMetadata
deriving DecidableEq

/-- Outcome of attempting to read the file backing one cache key: the file
may be missing (`stat` throws), not a regular file, unreadable (I/O or
permission error), unparsable (corrupt/truncated JSON), or a parsed item. -/
inductive ReadOutcome (V : Type) where
  | missing : ReadOutcome V
  | notFile : ReadOutcome V
  | ioError : ReadOutcome V
  | corrupt : ReadOutcome V
  | ok : CacheItem V → ReadOutcome V
deriving DecidableEq

/-- The filesystem contents backing the cache, addressed by cache key. -/
def Store (V : Type) := String → ReadOutcome V

/-- Mutable state of a `CacheManager` instance: its configuration and the
`latestBreachDate` field (initially `null`). -/
structure CacheManagerState where
  config : CacheConfig
  latestBreachDate : Option String
deriving DecidableEq

/-- Lexicographic comparison of character sequences — JavaScript's `<=` on
strings (which compares code units; identical to this code-point comparison
on the ASCII strings this client handles).  Structurally recursive so that
it evaluates by kernel reduction. -/
def charListLe : List Char → List Char → Bool
  | [], _ => true
  | _ :: _, [] => false
  | a :: as, b :: bs => if a = b then charListLe as bs else decide (a < b)

/-- JavaScript string comparison `a <= b`. -/
def jsStrLe (a b : String) : Bool := charListLe a.data b.data

theorem charListLe_total : ∀ a b : List Char,
    charListLe a b = true ∨ charListLe b a = true
  | [], _ => .inl rfl
  | _ :: _, [] => .inr rfl
  | a :: as, b :: bs => by
    by_cases h : a = b
    · subst h
      simpa [charListLe] using charListLe_total as bs
    · rcases lt_or_gt_of_ne h with hlt | hgt
      · exact .inl (by simp [charListLe, h, hlt])
      · exact .inr (by simp [charListLe, Ne.symm h, hgt])

theorem charListLe_trans : ∀ a b c : List Char,
    charListLe a b = true → charListLe b c = true → charListLe a c = true
  | [], _, _, _, _ => rfl
  | _ :: _, [], _, hab, _ => by simp [charListLe] at hab
  | _ :: _, _ :: _, [], _, hbc => by simp [charListLe] at hbc
  | a :: as, b :: bs, c :: cs, hab, hbc => by
    by_cases hab1 : a = b <;> by_cases hbc1 : b = c
    · subst hab1; subst hbc1
      simp only [charListLe, if_pos rfl] at hab hbc ⊢
      exact charListLe_trans as bs cs hab hbc
    · subst hab1
      simpa [charListLe, hbc1] using hbc
    · subst hbc1
      simpa [charListLe, hab1] using hab
    · simp only [charListLe, if_neg hab1, decide_eq_true_eq] at hab
      simp only [charListLe, if_neg hbc1, decide_eq_true_eq] at hbc
      have hac : a < c := lt_trans hab hbc
      simp [charListLe, ne_of_lt hac, hac]

theorem charListLe_antisymm : ∀ a b : List Char,
    charListLe a b = true → charListLe b a = true → a = b
  | [], [], _, _ => rfl
  | [], _ :: _, _, hba => by simp [charListLe] at hba
  | _ :: _, [], hab, _ => by simp [charListLe] at hab
  | a :: as, b :: bs, hab, hba => by
    by_cases h : a = b
    · subst h
      simp only [charListLe, if_pos rfl] at hab hba
      rw [charListLe_antisymm as bs hab hba]
    · simp only [charListLe, if_neg h, decide_eq_true_eq] at hab
      simp only [charListLe, if_neg (Ne.symm h), decide_eq_true_eq] at hba
      exact absurd hab (lt_asymm hba)

/-- Only the empty string is at most the empty string: `jsStrLe s "" = true` forces `s = ""`. -/
theorem jsStrLe_empty {s : String} (h : jsStrLe s "" = true) : s = "" := by
  cases s with
  | mk data =>
    cases data with
    | nil => rfl
    | cons c cs => simp [jsStrLe, charListLe] at h

/-- Ordering of parameter entries by name, as produced by
`Object.keys(params).sort()`. -/
def keyLe (a b : String × JsValue) : Prop := jsStrLe a.1 b.1 = true

instance : DecidableRel keyLe :=
  fun a b => inferInstanceAs (Decidable (jsStrLe a.1 b.1 = true))

instance : IsTotal (String × JsValue) keyLe :=
  ⟨fun a b => charListLe_total a.1.data b.1.data⟩

instance : IsTrans (String × JsValue) keyLe :=
  ⟨fun a b c h h' => charListLe_trans a.1.data b.1.data c.1.data h h'⟩

/-- Relation `keyLe` together with distinctness of the names; antisymmetric, hence
sorted lists of distinct-name entries are unique. -/
def keyLtStrict (a b : String × JsValue) : Prop := keyLe a b ∧ a.1 ≠ b.1

instance : IsAntisymm (String × JsValue) keyLtStrict :=
  ⟨fun a b h h' =>
    absurd (String.ext (charListLe_antisymm a.1.data b.1.data h.1 h'.1)) h.2⟩

/-- Model of `Object.keys(params).sort()` combined with the per-key lookup: the
parameter entries in ascending name order.  (JavaScript object keys are
pairwise distinct, so any comparison sort yields this list.) -/
def sortParams (ps : List (String × JsValue)) : List (String × JsValue) :=
  List.insertionSort keyLe ps

/-- The characters one parameter contributes to the hash: nothing when the
value is `undefined`, otherwise `name=String(value)` (no separator follows —
`hash.update` concatenates). -/
def paramChunk : String × JsValue → List Char
  | (k, v) => if v = .undef then [] else k.data ++ '=' :: (jsString v).data

/-- Body of `CacheManager.createCacheKey`, up to the final digest: the exact
character stream fed to the SHA-256 hash — the endpoint, then
`name=String(value)` for every parameter with a non-`undefined` value, in
sorted name order.  `params = none` models the parameter object being
omitted (`undefined`). -/
def createCacheStream (endpoint : String)
    (params : Option (List (String × JsValue))) : List Char :=
  endpoint.data ++
    match params with
    | none => []
    | some ps => ((sortParams ps).map paramChunk).flatten

/-- Function `CacheManager.createCacheKey`: the hex digest of the hashed stream, for
an abstract digest function `hash`. -/
def createCacheKey (hash : List Char → String) (endpoint : String)
    (params : Option (List (String × JsValue))) : String :=
  hash (createCacheStream endpoint params)

/-- POSIX `path.join` on two segments. -/
def pathJoin (a b : String) : String := a ++ "/" ++ b

/-- Function `CacheManager.getCacheFilePath`: the backing file for a key is
`join(cacheDir, key + ".json")`. -/
def CacheManager.getCacheFilePath (cacheDir key : String) : String :=
  pathJoin cacheDir (key ++ ".json")

/-- Modelled from the spec (not the source): the sharded persisted-state
layout the spec describes, `<cacheDir>/<first-2-hex-chars-of-key>/<key>.<ext>`
— a subdirectory named by the first two characters of the key before the
full-key filename.  Stated only to compare with
`CacheManager.getCacheFilePath`. -/
def specShardedFilePath (cacheDir key : String) : String :=
  pathJoin cacheDir (pathJoin (strOfChars (key.data.take 2)) (key ++ ".json"))

/-- Function `CacheManager.isCacheFresh`: TTL check first when `config.ttl` is truthy
(returning `false` only when the age exceeds it — on success control *falls
through*), then the breach-date comparison when both the current
`latestBreachDate` and the entry's tag are truthy, else `true`. -/
def CacheManager.isCacheFresh (config : CacheConfig)
    (latestBreachDate : Option String) (now : Int)
    (metadata : CacheMetadata) : Bool :=
  if jsTruthyNat config.ttl &&
      decide ((config.ttl.getD 0 : Int) < now - metadata.timestamp) then
    false
  else if jsTruthyStr latestBreachDate &&
      jsTruthyStr metadata.latestBreachAddedDate then
    jsStrLe (latestBreachDate.getD "") (metadata.latestBreachAddedDate.getD "")
  else
    true

/-- Function `CacheManager.get`: `null` when caching is disabled; otherwise look up
the entry at the derived key — any read failure is caught and yields `null`
(the function is total: it never raises) — and return the payload only when
`isCacheFresh` holds. -/
def CacheManager.get {V : Type} (hash : List Char → String)
    (st : CacheManagerState) (now : Int) (store : Store V)
    (endpoint : String) (params : Option (List (String × JsValue))) :
    Option V :=
  if !st.config.enabled then
    none
  else
    match store (createCacheKey hash endpoint params) with
    | .ok item =>
        if CacheManager.isCacheFresh st.config st.latestBreachDate now
            item.metadata then
          item.data
        else
          none
    | _ => none

/-- Function `CacheManager.set`: no-op when caching is disabled; otherwise write a
`CacheItem` containing the data (whatever it is — there is no null check)
and metadata at the derived key.  `writeOk = false` models a write that
fails (`mkdir`/`writeFile` throwing); the error is swallowed, leaving the
store unchanged. -/
def CacheManager.set {V : Type} (hash : List Char → String)
    (st : CacheManagerState) (now : Int) (writeOk : Bool) (store : Store V)
    (endpoint : String) (params : Option (List (String × JsValue)))
    (data : Option V) : Store V :=
  if !st.config.enabled then
    store
  else if writeOk then
    fun k =>
      if k = createCacheKey hash endpoint params then
        .ok ⟨data, ⟨now, st.latestBreachDate⟩⟩
      else
        store k
  else
    store

/-- Function `CacheManager.setLatestBreachDate`: assign the in-memory field. -/
def CacheManager.setLatestBreachDate (st : CacheManagerState)
    (date : Option String) : CacheManagerState :=
  { st with latestBreachDate := date }

/-- Function `HaveIBeenPwned.request`: try the cache; on a hit (`cachedData !== null`)
return it, otherwise perform the live call (`live` is its outcome:
`Except.error` models `requestNoCache` rejecting) and cache the response
only when it is not `null`.  Returns the outcome and the resulting store. -/
def HaveIBeenPwned.request {V ε : Type} (hash : List Char → String)
    (st : CacheManagerState) (now : Int) (writeOk : Bool) (store : Store V)
    (path : String) (params : Option (List (String × JsValue)))
    (live : Except ε (Option V)) : Except ε (Option V) × Store V :=
  match CacheManager.get hash st now store path params with
  | some v => (.ok (some v), store)
  | none =>
      match live with
      | .error e => (.error e, store)
      | .ok r =>
          (.ok r,
            if r.isSome then
              CacheManager.set hash st now writeOk store path params r
            else
              store)

/-- The only field of the latest-breach API response the domain-query logic
consults; the rest of the `BreachModel` payload is opaque to it. -/
structure BreachModel where
  AddedDate : Option String
deriving DecidableEq

/-- Mutable state of the `Breached` endpoint class: its private
`lastKnownBreachDate` field (initially `null`). -/
structure BreachedState where
  lastKnownBreachDate : Option String
deriving DecidableEq

/-- The tail of `Breached.domain` (src/index.ts lines 678–688): bypass the
cache read, perform the live request, and write the response back through
`updateCache` — which calls `CacheManager.set` with no null check. -/
def Breached.domainFreshFetch {V ε : Type} (hash : List Char → String)
    (st : CacheManagerState) (now : Int) (writeOk : Bool) (store : Store V)
    (path : String) (bs : BreachedState) (live : Except ε (Option V)) :
    Except ε (Option V) × BreachedState × Store V :=
  match live with
  | .error e => (.error e, bs, store)
  | .ok r => (.ok r, bs, CacheManager.set hash st now writeOk store path none r)

/-- Function `Breached.domain`: unless `forceFresh`, probe `breach.latest()` (`probe`
is its outcome; an `Except.error` propagates — the call is not wrapped in
`try`).  When the probe yields a breach with a truthy `AddedDate`: serve the
query through the ordinary read-through `HaveIBeenPwned.request` if
`lastKnownBreachDate` is truthy and `≥` the probe's date, else record the
probe's date and fall through.  All remaining paths perform the fresh fetch
with unconditional write-back.  `path` stands for
`breacheddomain/<encoded domain>`; both the cached read and the bypass use
the same path with no parameters. -/
def Breached.domain {V ε : Type} (hash : List Char → String)
    (st : CacheManagerState) (bs : BreachedState) (now : Int) (writeOk : Bool)
    (store : Store V) (path : String) (forceFresh : Bool)
    (probe : Except ε (Option BreachModel)) (live : Except ε (Option V)) :
    Except ε (Option V) × BreachedState × Store V :=
  if forceFresh then
    Breached.domainFreshFetch hash st now writeOk store path bs live
  else
    match probe with
    | .error e => (.error e, bs, store)
    | .ok latestBreach =>
        let ad : Option String := latestBreach.bind (·.AddedDate)
        if jsTruthyStr ad then
          if jsTruthyStr bs.lastKnownBreachDate &&
              jsStrLe (ad.getD "") (bs.lastKnownBreachDate.getD "") then
            let p := HaveIBeenPwned.request hash st now writeOk store path
              none live
            (p.1, bs, p.2)
          else
            Breached.domainFreshFetch hash st now writeOk store path
              ⟨ad⟩ live
        else
          Breached.domainFreshFetch hash st now writeOk store path bs live

/-! ## Shared concrete instances for witnesses and counterexamples -/

/-- The identity digest on character streams, packaged as a `String`; an
injective — hence collision-free — instantiation of the abstract hash. -/
theorem strOfChars_injective : Function.Injective strOfChars :=
  fun _ _ h => congrArg String.data h

/-- A one-entry store holding a breached-domain response captured when the
latest known breach date was 2024-01-01. -/
def sampleStore : Store Nat := fun k =>
  if k = createCacheKey strOfChars "breacheddomain/adobe.com" none then
    .ok ⟨some 42, ⟨0, some "2024-01-01"⟩⟩
  else
    .missing

/-- An empty backing store. -/
def emptyStore : Store Nat := fun _ => .missing

/-! ## C1 — TTL precedence -/

/-- C1: with a `ttl` configured, freshness is NOT determined solely by the
entry's age.  Evaluating the code at the failing input: `ttl = 1000` ms, the
entry is 500 ms old (well within the TTL), its freshness tag is 2024-01-01,
and the current breach signal is 2024-02-02.  The claim (and the repository's
own CACHING.md, whose `isCacheFresh` returns `age < ttl` inside the TTL
branch) says the entry is fresh, but `CacheManager.get` falls through to the
breach-date comparison and reports the entry stale, returning `none`. -/
theorem C1_ttl_fallthrough_eval :
    (0 : Int) ≤ 500 - 0 ∧ (500 - 0 : Int) < 1000 ∧
    jsStrLe "2024-02-02" "2024-01-01" = false ∧
    CacheManager.get strOfChars ⟨⟨true, none, some 1000⟩, some "2024-02-02"⟩ 500
      (fun k =>
        if k = createCacheKey strOfChars "breacheddomain/adobe.com" none then
          .ok ⟨some (42 : Nat), ⟨0, some "2024-01-01"⟩⟩
        else
          .missing)
      "breacheddomain/adobe.com" none = none := by
  refine ⟨by decide, by decide, by decide, by decide⟩

/-! ## C2 — `set` with null data -/

/-- C2 counterexample: calling `CacheManager.set` with a `null` payload is
NOT a no-op — at the concrete input below it creates a cache entry (the
source has no null check in `set`; `Breached.domain` even reaches `set` with
a `null` response through its unconditional `updateCache` write-back). -/
theorem C2_counterexample :
    CacheManager.set strOfChars ⟨⟨true, none, none⟩, none⟩ 0 true emptyStore
        "breacheddomain/example.com" none (none : Option Nat)
        (createCacheKey strOfChars "breacheddomain/example.com" none) =
      .ok ⟨none, ⟨0, none⟩⟩ ∧
    CacheManager.set strOfChars ⟨⟨true, none, none⟩, none⟩ 0 true emptyStore
        "breacheddomain/example.com" none (none : Option Nat) ≠ emptyStore := by
  constructor
  · decide
  · intro h
    have h2 := congrFun h
      (createCacheKey strOfChars "breacheddomain/example.com" none)
    revert h2
    decide

/-- C2 amended: the null guard lives one level up — the client's
read-through `HaveIBeenPwned.request` stores an entry only for a non-null
response, so a `null` live outcome leaves the store untouched on every
path. -/
theorem C2_request_null_no_write {V ε : Type} (hash : List Char → String)
    (st : CacheManagerState) (now : Int) (writeOk : Bool) (store : Store V)
    (path : String) (params : Option (List (String × JsValue))) :
    (HaveIBeenPwned.request hash st now writeOk store path params
      (.ok none : Except ε (Option V))).2 = store := by
  unfold HaveIBeenPwned.request
  cases CacheManager.get hash st now store path params <;> simp

/-! ## C5 — breach-date invalidation without TTL -/

/-- C5: with no `ttl` configured, immediately after `setLatestBreachDate`
installs a signal `s`, an entry whose (non-empty) tag `t` is lexicographically
older than `s` is reported stale by `get`, and one whose tag is at least `s`
is served — for every current time, i.e. with no time passing. -/
theorem C5_breach_date_invalidation {V : Type} (hash : List Char → String)
    (st0 : CacheManagerState) (now ts : Int) (store : Store V)
    (endpoint : String) (params : Option (List (String × JsValue)))
    (s t : String) (v : V)
    (hen : st0.config.enabled = true) (httl : st0.config.ttl = none)
    (hs : s ≠ "") (ht : t ≠ "")
    (hstore : store (createCacheKey hash endpoint params) =
      .ok ⟨some v, ⟨ts, some t⟩⟩) :
    (jsStrLe s t = false →
      CacheManager.get hash (CacheManager.setLatestBreachDate st0 (some s))
        now store endpoint params = none) ∧
    (jsStrLe s t = true →
      CacheManager.get hash (CacheManager.setLatestBreachDate st0 (some s))
        now store endpoint params = some v) := by
  constructor <;> intro hcmp <;>
    simp [CacheManager.get, CacheManager.setLatestBreachDate, hstore,
      CacheManager.isCacheFresh, httl, hen, jsTruthyNat, jsTruthyStr,
      hs, ht, hcmp]

/-- C5 witness: the entry tagged 2024-01-01 goes stale the moment the signal
2024-02-02 is set, and stays fresh under the signal 2024-01-01. -/
theorem C5_witness :
    (("2024-02-02" : String) ≠ "") ∧
    CacheManager.get strOfChars
      (CacheManager.setLatestBreachDate ⟨⟨true, none, none⟩, none⟩
        (some "2024-02-02")) 999 sampleStore "breacheddomain/adobe.com" none =
      none :=
  ⟨by decide,
    (C5_breach_date_invalidation strOfChars ⟨⟨true, none, none⟩, none⟩ 999 0
      sampleStore "breacheddomain/adobe.com" none "2024-02-02" "2024-01-01" 42
      rfl rfl (by decide) (by decide) (by decide)).1 (by decide)⟩

/-! ## C7 — persisted-state layout -/

/-- C7 counterexample: the store does not shard entries — at the concrete
cache directory `c` and key `abcd`, the code's path `c/abcd.json` differs
from the sharded layout `c/ab/abcd.json` the claim describes. -/
theorem C7_counterexample :
    CacheManager.getCacheFilePath "c" "abcd" ≠ specShardedFilePath "c" "abcd" := by
  decide

/-- C7 amended: for every cache directory and key the entry is stored flat,
at `<cacheDir>/<key>.json`, which is never the sharded
`<cacheDir>/<first-2-chars>/<key>.json` location. -/
theorem C7_flat_layout (dir key : String) :
    CacheManager.getCacheFilePath dir key = dir ++ "/" ++ (key ++ ".json") ∧
    CacheManager.getCacheFilePath dir key ≠ specShardedFilePath dir key := by
  refine ⟨rfl, fun h => ?_⟩
  have hl := congrArg String.length h
  have h1 : ("/" : String).length = 1 := rfl
  simp only [CacheManager.getCacheFilePath, specShardedFilePath, pathJoin,
    strOfChars, String.length_append, String.length_mk, h1] at hl
  omega

/-! ## C9 — cache-read failures are misses -/

/-- C9: `get` is total (the embedding returns `Option`, never raises) and
treats every failed read of the stored entry — missing file, not a regular
file, I/O or permission error, corrupt/unparsable content — as a miss,
returning `none`. -/
theorem C9_read_failure_is_miss {V : Type} (hash : List Char → String)
    (st : CacheManagerState) (now : Int) (store : Store V)
    (endpoint : String) (params : Option (List (String × JsValue)))
    (h : store (createCacheKey hash endpoint params) = .missing ∨
      store (createCacheKey hash endpoint params) = .notFile ∨
      store (createCacheKey hash endpoint params) = .ioError ∨
      store (createCacheKey hash endpoint params) = .corrupt) :
    CacheManager.get hash st now store endpoint params = none := by
  rcases h with h | h | h | h <;> simp [CacheManager.get, h]

/-- C9 witness: a corrupt entry under an enabled cache yields a miss. -/
theorem C9_witness :
    CacheManager.get strOfChars ⟨⟨true, none, none⟩, some "2024-02-02"⟩ 5
      (fun _ => (ReadOutcome.corrupt : ReadOutcome Nat)) "breaches" none =
      none :=
  C9_read_failure_is_miss strOfChars ⟨⟨true, none, none⟩, some "2024-02-02"⟩ 5
    (fun _ => ReadOutcome.corrupt) "breaches" none
    (Or.inr (Or.inr (Or.inr rfl)))

/-! ## C6 — probe failure handling in the domain query -/

/-- C6 counterexample: when the latest-breach probe rejects, the domain
query does NOT fall through to a fresh fetch — at this concrete input the
probe's error propagates to the caller (`breach.latest()` is not wrapped in
any `try`), so no result is returned. -/
theorem C6_counterexample :
    (Breached.domain strOfChars ⟨⟨true, none, none⟩, none⟩ ⟨none⟩ 0 true
      emptyStore "breacheddomain/example.com" false
      (Except.error ()) (Except.ok (some 7))).1 = Except.error () := rfl

/-- C6 amended: if the probe returns nothing — no breach, or a breach whose
`AddedDate` is absent or empty — the query falls through to the fresh live
fetch, returns its result and writes it back; but a probe error is
propagated to the caller rather than failing open. -/
theorem C6_probe_nothing_falls_through {V ε : Type}
    (hash : List Char → String) (st : CacheManagerState) (bs : BreachedState)
    (now : Int) (writeOk : Bool) (store : Store V) (path : String)
    (probe : Except ε (Option BreachModel)) (r : Option V) (e : ε)
    (hp : probe = .ok none ∨ probe = .ok (some ⟨none⟩) ∨
      probe = .ok (some ⟨some ""⟩)) :
    Breached.domain hash st bs now writeOk store path false probe (.ok r) =
      (.ok r, bs, CacheManager.set hash st now writeOk store path none r) ∧
    Breached.domain hash st bs now writeOk store path false
      (.error e) (.ok r) = (.error e, bs, store) := by
  constructor
  · rcases hp with hp | hp | hp <;> subst hp <;>
      simp [Breached.domain, Breached.domainFreshFetch, jsTruthyStr]
  · rfl

/-- C6 witness: a null latest-breach probe result leads to a live fetch
whose result is returned and written back. -/
theorem C6_witness :
    Breached.domain strOfChars ⟨⟨true, none, none⟩, none⟩ ⟨none⟩ 0 true
      emptyStore "breacheddomain/example.com" false
      (Except.ok (none : Option BreachModel) : Except Unit (Option BreachModel))
      (Except.ok (some 7)) =
      (.ok (some 7), ⟨none⟩,
        CacheManager.set strOfChars ⟨⟨true, none, none⟩, none⟩ 0 true
          emptyStore "breacheddomain/example.com" none (some 7)) :=
  (C6_probe_nothing_falls_through strOfChars ⟨⟨true, none, none⟩, none⟩ ⟨none⟩
    0 true emptyStore "breacheddomain/example.com" (Except.ok none) (some 7)
    () (Or.inl rfl)).1

/-! ## C4 — domain-query breach tracker -/

/-- C4: with `forceFresh = false` and a probe returning a breach with a
defined (non-empty) added date `ad`: if a previously recorded
`lastKnownBreachDate` exists and is at least `ad`, the query is served
through the ordinary read-through cache with the tracker state unchanged;
otherwise — no prior record, a falsy prior record, or a strictly newer probe
date — the tracker records `ad`, the cache read is bypassed, the live fetch's
result is returned and written back to the store. -/
theorem C4_domain_tracker {V ε : Type} (hash : List Char → String)
    (st : CacheManagerState) (bs : BreachedState) (now : Int) (writeOk : Bool)
    (store : Store V) (path : String) (ad : String)
    (live : Except ε (Option V)) (had : ad ≠ "") :
    (∀ lk, bs.lastKnownBreachDate = some lk → jsStrLe ad lk = true →
      Breached.domain hash st bs now writeOk store path false
          (.ok (some ⟨some ad⟩)) live =
        ((HaveIBeenPwned.request hash st now writeOk store path none live).1,
          bs,
          (HaveIBeenPwned.request hash st now writeOk store path none
            live).2)) ∧
    ((bs.lastKnownBreachDate = none ∨
        ∃ lk, bs.lastKnownBreachDate = some lk ∧ jsStrLe ad lk = false) →
      ∀ r, live = .ok r →
        Breached.domain hash st bs now writeOk store path false
            (.ok (some ⟨some ad⟩)) live =
          (.ok r, ⟨some ad⟩,
            CacheManager.set hash st now writeOk store path none r)) := by
  constructor
  · intro lk hlk hle
    have hlkne : lk ≠ "" := by
      intro h0
      exact had (jsStrLe_empty (h0 ▸ hle))
    simp [Breached.domain, jsTruthyStr, had, hlk, hlkne, hle]
  · intro hrec r hr
    subst hr
    rcases hrec with hrec | ⟨lk, hlk, hlt⟩
    · simp [Breached.domain, Breached.domainFreshFetch, jsTruthyStr, had, hrec]
    · simp [Breached.domain, Breached.domainFreshFetch, jsTruthyStr, had,
        hlk, hlt]

/-- C4 witness, no-advance side: with the recorded date 2024-03-01 and a
probe date 2024-02-02 the query goes through the read-through cache and the
tracker state is unchanged. -/
theorem C4_witness :
    (("2024-02-02" : String) ≠ "") ∧
    Breached.domain strOfChars ⟨⟨true, none, none⟩, none⟩ ⟨some "2024-03-01"⟩
        0 true sampleStore "breacheddomain/adobe.com" false
        (Except.ok (some ⟨some "2024-02-02"⟩) :
          Except Unit (Option BreachModel))
        (Except.ok (some 7)) =
      ((HaveIBeenPwned.request strOfChars ⟨⟨true, none, none⟩, none⟩ 0 true
          sampleStore "breacheddomain/adobe.com" none
          (Except.ok (some 7) : Except Unit (Option Nat))).1,
        ⟨some "2024-03-01"⟩,
        (HaveIBeenPwned.request strOfChars ⟨⟨true, none, none⟩, none⟩ 0 true
          sampleStore "breacheddomain/adobe.com" none
          (Except.ok (some 7) : Except Unit (Option Nat))).2) :=
  ⟨by decide,
    (C4_domain_tracker strOfChars ⟨⟨true, none, none⟩, none⟩
      ⟨some "2024-03-01"⟩ 0 true sampleStore "breacheddomain/adobe.com"
      "2024-02-02" (Except.ok (some 7) : Except Unit (Option Nat))
      (by decide)).1
      "2024-03-01" rfl (by decide)⟩

/-! ## Sorting infrastructure for key-derivation claims -/

theorem sortParams_perm (ps : List (String × JsValue)) :
    (sortParams ps).Perm ps :=
  List.perm_insertionSort keyLe ps

theorem sortParams_sorted (ps : List (String × JsValue)) :
    List.Sorted keyLe (sortParams ps) :=
  List.sorted_insertionSort keyLe ps

/-- A name-sorted list of parameters with pairwise-distinct names is sorted
under the strict (antisymmetric) order. -/
theorem sorted_strict {l : List (String × JsValue)}
    (hs : List.Sorted keyLe l) (hnd : (l.map Prod.fst).Nodup) :
    List.Sorted keyLtStrict l := by
  have hne : List.Pairwise (fun a b : String × JsValue => a.1 ≠ b.1) l :=
    List.pairwise_map.mp hnd
  exact (List.Pairwise.and hs hne).imp fun h => ⟨h.1, h.2⟩

/-- Two name-sorted permutations of the same distinct-name parameter list
are equal — the sorted form is canonical. -/
theorem sortedKey_unique {l₁ l₂ : List (String × JsValue)} (hp : l₁.Perm l₂)
    (hs₁ : List.Sorted keyLe l₁) (hs₂ : List.Sorted keyLe l₂)
    (hnd : (l₁.map Prod.fst).Nodup) : l₁ = l₂ :=
  List.eq_of_perm_of_sorted hp (sorted_strict hs₁ hnd)
    (sorted_strict hs₂ (((hp.map Prod.fst).nodup_iff).mp hnd))

/-- Sorting is insensitive to the insertion order of a distinct-name
parameter object. -/
theorem sortParams_eq_of_perm {ps₁ ps₂ : List (String × JsValue)}
    (hnd : (ps₁.map Prod.fst).Nodup) (hperm : ps₁.Perm ps₂) :
    sortParams ps₁ = sortParams ps₂ :=
  sortedKey_unique
    ((sortParams_perm ps₁).trans (hperm.trans (sortParams_perm ps₂).symm))
    (sortParams_sorted _) (sortParams_sorted _)
    ((((sortParams_perm ps₁).map Prod.fst).nodup_iff).mpr hnd)

/-- Unfolding of the hashed stream for a present parameter object. -/
theorem createCacheStream_some (e : String) (ps : List (String × JsValue)) :
    createCacheStream e (some ps) =
      e.data ++ ((sortParams ps).map paramChunk).flatten := rfl

/-- Whether a parameter survives the `value !== undefined` check. -/
def definedParam (p : String × JsValue) : Bool := decide (p.2 ≠ .undef)

/-- Parameters with an `undefined` value contribute nothing to the hashed
stream, so filtering them out first leaves the stream unchanged. -/
theorem flatten_paramChunk_filter : ∀ l : List (String × JsValue),
    (l.map paramChunk).flatten = ((l.filter definedParam).map paramChunk).flatten
  | [] => rfl
  | (k, v) :: t => by
    by_cases hv : v = .undef
    · subst hv
      simp [paramChunk, definedParam, flatten_paramChunk_filter t]
    · simp [paramChunk, definedParam, hv, flatten_paramChunk_filter t]

/-- Appending an `undefined`-valued parameter to a distinct-name object
leaves the hashed stream unchanged. -/
theorem createCacheStream_undef_omit (e : String)
    (qs : List (String × JsValue)) (p : String)
    (hnd : ((qs ++ [(p, JsValue.undef)]).map Prod.fst).Nodup) :
    createCacheStream e (some (qs ++ [(p, JsValue.undef)])) =
      createCacheStream e (some qs) := by
  have hfilter : (qs ++ [(p, JsValue.undef)]).filter definedParam =
      qs.filter definedParam := by
    simp [List.filter_append, definedParam]
  have hndsort :
      ((sortParams (qs ++ [(p, JsValue.undef)])).map Prod.fst).Nodup :=
    (((sortParams_perm _).map Prod.fst).nodup_iff).mpr hnd
  have hfeq : (sortParams (qs ++ [(p, JsValue.undef)])).filter definedParam =
      (sortParams qs).filter definedParam := by
    apply sortedKey_unique
    · refine ((sortParams_perm _).filter _).trans ?_
      rw [hfilter]
      exact ((sortParams_perm qs).filter _).symm
    · exact List.Pairwise.sublist (List.filter_sublist _) (sortParams_sorted _)
    · exact List.Pairwise.sublist (List.filter_sublist _) (sortParams_sorted _)
    · exact List.Nodup.sublist
        ((List.filter_sublist _).map Prod.fst) hndsort
  rw [createCacheStream_some, createCacheStream_some,
    flatten_paramChunk_filter (sortParams (qs ++ [(p, JsValue.undef)])),
    hfeq, ← flatten_paramChunk_filter]

/-! ## C8 — key determinism and omission equivalence -/

/-- C8: for every digest function, endpoint and distinct-name parameter
object, supplying the parameters in any insertion order derives the same
key, and appending a parameter whose value is `undefined` derives the same
key as omitting it. -/
theorem C8_key_determinism (hash : List Char → String) (e : String)
    (ps₁ ps₂ qs : List (String × JsValue)) (p : String)
    (hnd : (ps₁.map Prod.fst).Nodup) (hperm : ps₁.Perm ps₂)
    (hq : ((qs ++ [(p, JsValue.undef)]).map Prod.fst).Nodup) :
    createCacheKey hash e (some ps₁) = createCacheKey hash e (some ps₂) ∧
    createCacheKey hash e (some (qs ++ [(p, JsValue.undef)])) =
      createCacheKey hash e (some qs) := by
  constructor
  · unfold createCacheKey
    rw [createCacheStream_some, createCacheStream_some,
      sortParams_eq_of_perm hnd hperm]
  · unfold createCacheKey
    rw [createCacheStream_undef_omit e qs p hq]

/-- C8 witness: the spec's literal example — `truncateResponse` and
`IncludeUnverified` in either insertion order hash identically, and adding
`domain: undefined` changes nothing. -/
theorem C8_witness :
    ((([("truncateResponse", JsValue.bool true),
        ("IncludeUnverified", JsValue.bool false)] :
          List (String × JsValue)).map Prod.fst).Nodup) ∧
    createCacheKey strOfChars "breachedaccount/test@example.com"
        (some [("truncateResponse", JsValue.bool true),
          ("IncludeUnverified", JsValue.bool false)]) =
      createCacheKey strOfChars "breachedaccount/test@example.com"
        (some [("IncludeUnverified", JsValue.bool false),
          ("truncateResponse", JsValue.bool true)]) ∧
    createCacheKey strOfChars "breachedaccount/test@example.com"
        (some ([("truncateResponse", JsValue.bool true),
          ("IncludeUnverified", JsValue.bool false)] ++
          [("domain", JsValue.undef)])) =
      createCacheKey strOfChars "breachedaccount/test@example.com"
        (some [("truncateResponse", JsValue.bool true),
          ("IncludeUnverified", JsValue.bool false)]) :=
  ⟨by decide,
    C8_key_determinism strOfChars "breachedaccount/test@example.com"
      [("truncateResponse", JsValue.bool true),
        ("IncludeUnverified", JsValue.bool false)]
      [("IncludeUnverified", JsValue.bool false),
        ("truncateResponse", JsValue.bool true)]
      [("truncateResponse", JsValue.bool true),
        ("IncludeUnverified", JsValue.bool false)]
      "domain" (by decide) (by decide) (by decide)⟩

/-! ## C10 — null is included, undefined is excluded -/

/-- Unfolding of the hashed stream for an absent parameter object. -/
theorem createCacheStream_none (e : String) :
    createCacheStream e none = e.data := by
  simp [createCacheStream]

/-- C10: only a value that is exactly `undefined` is excluded from key
derivation.  A `null` value is included — fed to the hash as `name=null` —
so under a collision-free hash the object with `p: null` derives a
different key from omitting `p`, while `p: undefined` derives the same
key as omitting `p`. -/
theorem C10_null_included (hash : List Char → String)
    (hinj : Function.Injective hash) (e p : String) :
    createCacheStream e (some [(p, JsValue.jsNull)]) =
      e.data ++ (p.data ++ '=' :: "null".data) ∧
    createCacheKey hash e (some [(p, JsValue.jsNull)]) ≠
      createCacheKey hash e none ∧
    createCacheKey hash e (some [(p, JsValue.undef)]) =
      createCacheKey hash e none := by
  have hstream : createCacheStream e (some [(p, JsValue.jsNull)]) =
      e.data ++ (p.data ++ '=' :: "null".data) := by
    simp [createCacheStream_some, sortParams, List.insertionSort, paramChunk,
      jsString]
  refine ⟨hstream, fun h => ?_, ?_⟩
  · have hs := hinj h
    rw [hstream, createCacheStream_none] at hs
    have hlen := congrArg List.length hs
    have h4 : ("null" : String).data.length = 4 := rfl
    simp [List.length_append, h4] at hlen
  · unfold createCacheKey
    rw [createCacheStream_none]
    congr 1
    simp [createCacheStream_some, sortParams, List.insertionSort, paramChunk]

/-- C10 witness: at the endpoint `breaches`, the object with `domain: null`
keys differently from omitting `domain` under the injective digest. -/
theorem C10_witness :
    Function.Injective strOfChars ∧
    createCacheKey strOfChars "breaches" (some [("domain", JsValue.jsNull)]) ≠
      createCacheKey strOfChars "breaches" none :=
  ⟨strOfChars_injective,
    (C10_null_included strOfChars strOfChars_injective "breaches"
      "domain").2.1⟩

/-! ## C3 — key discrimination -/

/-- C3 counterexample: parameters are concatenated into the hash input with
no separator, so two requests with the same endpoint but different defined
parameter sets can feed identical streams to the hash: at endpoint `e`, the
object with the single parameter `a = "1b=2"` and the object with the two
parameters `a = "1", b = "2"` derive the same key even under an injective
(collision-free) digest. -/
theorem C3_counterexample :
    Function.Injective strOfChars ∧
    ((([("a", JsValue.str "1b=2")] :
      List (String × JsValue)).map Prod.fst).Nodup) ∧
    ((([("a", JsValue.str "1"), ("b", JsValue.str "2")] :
      List (String × JsValue)).map Prod.fst).Nodup) ∧
    ¬ (([("a", JsValue.str "1b=2")] :
        List (String × JsValue)).filter definedParam).Perm
      (([("a", JsValue.str "1"), ("b", JsValue.str "2")] :
        List (String × JsValue)).filter definedParam) ∧
    createCacheKey strOfChars "e" (some [("a", JsValue.str "1b=2")]) =
      createCacheKey strOfChars "e"
        (some [("a", JsValue.str "1"), ("b", JsValue.str "2")]) :=
  ⟨strOfChars_injective, by decide, by decide, by decide, by decide⟩

/-- Splitting at an unambiguous separator: when neither prefix contains the
separator character, concatenations agree only if the parts agree. -/
theorem eq_split : ∀ (a b x y : List Char),
    (∀ c ∈ a, c ≠ '=') → (∀ c ∈ b, c ≠ '=') →
    a ++ '=' :: x = b ++ '=' :: y → a = b ∧ x = y
  | [], [], x, y, _, _, h => ⟨rfl, by simpa using h⟩
  | [], d :: b', x, y, _, hb, h => by
    simp only [List.nil_append, List.cons_append, List.cons.injEq] at h
    exact absurd h.1.symm (hb d (List.mem_cons_self d b'))
  | c :: a', [], x, y, ha, _, h => by
    simp only [List.nil_append, List.cons_append, List.cons.injEq] at h
    exact absurd h.1 (ha c (List.mem_cons_self c a'))
  | c :: a', d :: b', x, y, ha, hb, h => by
    simp only [List.cons_append, List.cons.injEq] at h
    obtain ⟨rfl, h2⟩ := h
    obtain ⟨h3, h4⟩ := eq_split a' b' x y
      (fun u hu => ha u (List.mem_cons_of_mem _ hu))
      (fun u hu => hb u (List.mem_cons_of_mem _ hu)) h2
    exact ⟨by rw [h3], h4⟩

/-- Injectivity of separator-free chunk concatenation: with positionally
equal names and no `=` in any endpoint, name or value, equal streams force
equal endpoints and equal chunk lists. -/
theorem chunks_inj :
    ∀ (l₁ l₂ : List (List Char × List Char)) (e₁ e₂ : List Char),
      l₁.map Prod.fst = l₂.map Prod.fst →
      (∀ c ∈ e₁, c ≠ '=') → (∀ c ∈ e₂, c ≠ '=') →
      (∀ q ∈ l₁, (∀ c ∈ q.1, c ≠ '=') ∧ (∀ c ∈ q.2, c ≠ '=')) →
      (∀ q ∈ l₂, (∀ c ∈ q.1, c ≠ '=') ∧ (∀ c ∈ q.2, c ≠ '=')) →
      e₁ ++ (l₁.map (fun q => q.1 ++ '=' :: q.2)).flatten =
        e₂ ++ (l₂.map (fun q => q.1 ++ '=' :: q.2)).flatten →
      e₁ = e₂ ∧ l₁ = l₂ := by
  intro l₁
  induction l₁ with
  | nil =>
    intro l₂ e₁ e₂ hnames he₁ he₂ _ _ h
    have hl₂ : l₂ = [] := by
      have := hnames.symm
      simpa using List.map_eq_nil_iff.mp this
    subst hl₂
    simp only [List.map_nil, List.flatten_nil, List.append_nil] at h
    exact ⟨h, rfl⟩
  | cons q₁ t₁ ih =>
    intro l₂ e₁ e₂ hnames he₁ he₂ hm₁ hm₂ h
    obtain ⟨k, v₁⟩ := q₁
    cases l₂ with
    | nil => simp at hnames
    | cons q₂ t₂ =>
      obtain ⟨k₂, v₂⟩ := q₂
      simp only [List.map_cons, List.cons.injEq] at hnames
      obtain ⟨hk, hnames'⟩ := hnames
      subst hk
      simp only [List.map_cons, List.flatten_cons, List.cons_append,
        List.append_assoc] at h
      have h' : (e₁ ++ k) ++ '=' ::
          (v₁ ++ (t₁.map (fun q => q.1 ++ '=' :: q.2)).flatten) =
          (e₂ ++ k) ++ '=' ::
          (v₂ ++ (t₂.map (fun q => q.1 ++ '=' :: q.2)).flatten) := by
        simpa [List.append_assoc] using h
      have hkfree : ∀ c ∈ k, c ≠ '=' :=
        (hm₁ (k, v₁) (List.mem_cons_self _ _)).1
      have hsplit := eq_split (e₁ ++ k) (e₂ ++ k) _ _
        (fun c hc => (List.mem_append.mp hc).elim (he₁ c) (hkfree c))
        (fun c hc => (List.mem_append.mp hc).elim (he₂ c) (hkfree c)) h'
      have he : e₁ = e₂ := List.append_cancel_right hsplit.1
      have hv₁free : ∀ c ∈ v₁, c ≠ '=' :=
        (hm₁ (k, v₁) (List.mem_cons_self _ _)).2
      have hv₂free : ∀ c ∈ v₂, c ≠ '=' :=
        (hm₂ (k, v₂) (List.mem_cons_self _ _)).2
      cases t₁ with
      | nil =>
        have ht₂ : t₂ = [] := List.map_eq_nil_iff.mp hnames'.symm
        subst ht₂
        have hv : v₁ = v₂ := by simpa using hsplit.2
        exact ⟨he, by rw [hv]⟩
      | cons r₁ t₁' =>
        cases t₂ with
        | nil => simp at hnames'
        | cons r₂ t₂' =>
          obtain ⟨k2, w₁⟩ := r₁
          obtain ⟨k2', w₂⟩ := r₂
          simp only [List.map_cons, List.cons.injEq] at hnames'
          obtain ⟨hk2, hnames''⟩ := hnames'
          subst hk2
          have hrest := hsplit.2
          simp only [List.map_cons, List.flatten_cons, List.cons_append,
            List.append_assoc] at hrest
          have hrest' : (v₁ ++ k2) ++ '=' ::
              (w₁ ++ (t₁'.map (fun q => q.1 ++ '=' :: q.2)).flatten) =
              (v₂ ++ k2) ++ '=' ::
              (w₂ ++ (t₂'.map (fun q => q.1 ++ '=' :: q.2)).flatten) := by
            simpa [List.append_assoc] using hrest
          have hk2free : ∀ c ∈ k2, c ≠ '=' :=
            (hm₁ (k2, w₁)
              (List.mem_cons_of_mem _ (List.mem_cons_self _ _))).1
          have hsplit2 := eq_split (v₁ ++ k2) (v₂ ++ k2) _ _
            (fun c hc =>
              (List.mem_append.mp hc).elim (hv₁free c) (hk2free c))
            (fun c hc =>
              (List.mem_append.mp hc).elim (hv₂free c) (hk2free c))
            hrest'
          have hv : v₁ = v₂ := List.append_cancel_right hsplit2.1
          have htail := ih (((k2, w₂) :: t₂')) [] []
            (by simp [hnames''])
            (by simp) (by simp)
            (fun q hq => hm₁ q (List.mem_cons_of_mem _ hq))
            (fun q hq => hm₂ q (List.mem_cons_of_mem _ hq))
            (by
              simp only [List.nil_append]
              have hw : w₁ ++ (t₁'.map (fun q => q.1 ++ '=' :: q.2)).flatten =
                  w₂ ++ (t₂'.map (fun q => q.1 ++ '=' :: q.2)).flatten :=
                hsplit2.2
              simp [List.map_cons, List.flatten_cons, List.cons_append,
                List.append_assoc, hw])
          exact ⟨he, by rw [hv, htail.2]⟩

/-- Containing no `=` character (at the level of the underlying data). -/
def eqFree (s : String) : Prop := ∀ c ∈ s.data, c ≠ '='

instance (s : String) : Decidable (eqFree s) :=
  inferInstanceAs (Decidable (∀ c ∈ s.data, c ≠ '='))

/-- On defined parameters the chunk map factors through the underlying
character data. -/
theorem map_paramChunk_defined (ps : List (String × JsValue))
    (hdef : ∀ p ∈ ps, p.2 ≠ JsValue.undef) :
    ps.map paramChunk =
      (ps.map (fun p => (p.1.data, (jsString p.2).data))).map
        (fun q => q.1 ++ '=' :: q.2) := by
  rw [List.map_map]
  refine List.map_congr_left fun p hp => ?_
  obtain ⟨k, v⟩ := p
  simp [paramChunk, hdef (k, v) hp, Function.comp]

/-- Equal data-level parameter lists come from equal string-level ones. -/
theorem strPairs_of_dataPairs {ps₁ ps₂ : List (String × JsValue)}
    (h : ps₁.map (fun p => (p.1.data, (jsString p.2).data)) =
        ps₂.map (fun p => (p.1.data, (jsString p.2).data))) :
    ps₁.map (fun p => (p.1, jsString p.2)) =
      ps₂.map (fun p => (p.1, jsString p.2)) := by
  have hginj : Function.Injective
      (fun q : String × String => (q.1.data, q.2.data)) := by
    intro a b hab
    simp only [Prod.mk.injEq] at hab
    exact Prod.ext (String.ext hab.1) (String.ext hab.2)
  apply List.map_injective_iff.mpr hginj
  simpa [List.map_map, Function.comp] using h

/-- Sorting leaves an already name-sorted parameter list unchanged. -/
theorem sortParams_eq_self {ps : List (String × JsValue)}
    (hs : List.Sorted keyLe ps) : sortParams ps = ps :=
  List.Sorted.insertionSort_eq hs

/-- C3 amended: key discrimination holds on the separator-free fragment.
For requests whose endpoint, parameter names and stringified parameter
values contain no `=` character, whose parameters are all defined, and which
list the same parameter names in sorted order, any difference in the
endpoint or in some parameter's stringified value yields different keys
under a collision-free hash.  (In general the property fails — see the
counterexample — because chunks are concatenated without separators.) -/
theorem C3_key_discrimination (hash : List Char → String)
    (hinj : Function.Injective hash) (e₁ e₂ : String)
    (ps₁ ps₂ : List (String × JsValue))
    (hnames : ps₁.map Prod.fst = ps₂.map Prod.fst)
    (hsort : List.Sorted keyLe ps₁)
    (hdef₁ : ∀ p ∈ ps₁, p.2 ≠ JsValue.undef)
    (hdef₂ : ∀ p ∈ ps₂, p.2 ≠ JsValue.undef)
    (he₁ : eqFree e₁) (he₂ : eqFree e₂)
    (hk₁ : ∀ p ∈ ps₁, eqFree p.1)
    (hv₁ : ∀ p ∈ ps₁, eqFree (jsString p.2))
    (hv₂ : ∀ p ∈ ps₂, eqFree (jsString p.2))
    (hne : e₁ ≠ e₂ ∨ ps₁.map (fun p => (p.1, jsString p.2)) ≠
      ps₂.map (fun p => (p.1, jsString p.2))) :
    createCacheKey hash e₁ (some ps₁) ≠ createCacheKey hash e₂ (some ps₂) := by
  intro h
  have hstream := hinj h
  have hsort₂ : List.Sorted keyLe ps₂ := by
    have hp₁ : List.Pairwise (fun a b : String => jsStrLe a b = true)
        (ps₁.map Prod.fst) := List.pairwise_map.mpr hsort
    rw [hnames] at hp₁
    exact (@List.pairwise_map _ _ Prod.fst _ ps₂).mp hp₁
  rw [createCacheStream_some, createCacheStream_some,
    sortParams_eq_self hsort, sortParams_eq_self hsort₂,
    map_paramChunk_defined ps₁ hdef₁, map_paramChunk_defined ps₂ hdef₂]
    at hstream
  have hk₂ : ∀ p ∈ ps₂, eqFree p.1 := by
    intro p hp
    have hmem : p.1 ∈ ps₂.map Prod.fst := List.mem_map_of_mem _ hp
    rw [← hnames] at hmem
    obtain ⟨q, hq, hqe⟩ := List.mem_map.mp hmem
    exact hqe ▸ hk₁ q hq
  have hmain := chunks_inj
    (ps₁.map (fun p => (p.1.data, (jsString p.2).data)))
    (ps₂.map (fun p => (p.1.data, (jsString p.2).data)))
    e₁.data e₂.data
    (by
      have hdata := congrArg (List.map String.data) hnames
      simpa [List.map_map, Function.comp] using hdata)
    he₁ he₂
    (by
      intro q hq
      obtain ⟨p, hp, rfl⟩ := List.mem_map.mp hq
      exact ⟨hk₁ p hp, hv₁ p hp⟩)
    (by
      intro q hq
      obtain ⟨p, hp, rfl⟩ := List.mem_map.mp hq
      exact ⟨hk₂ p hp, hv₂ p hp⟩)
    hstream
  rcases hne with hne | hne
  · exact hne (String.ext hmain.1)
  · exact hne (strPairs_of_dataPairs hmain.2)

/-- C3 witness: on the separator-free fragment, changing the value of the
defined parameter `domain` at the endpoint `breaches` changes the key. -/
theorem C3_witness :
    Function.Injective strOfChars ∧
    createCacheKey strOfChars "breaches"
        (some [("domain", JsValue.str "adobe.com")]) ≠
      createCacheKey strOfChars "breaches"
        (some [("domain", JsValue.str "example.com")]) :=
  ⟨strOfChars_injective,
    C3_key_discrimination strOfChars strOfChars_injective "breaches"
      "breaches" [("domain", JsValue.str "adobe.com")]
      [("domain", JsValue.str "example.com")] rfl
      (List.sorted_singleton _) (by decide) (by decide) (by decide)
      (by decide) (by decide) (by decide) (by decide)
      (Or.inr (by decide))⟩
